import Mathlib

/-!
Verification development for the query-builder and field-mapper core of a
FastAPI RBAC admin backend (`backend/app/core/query_builder.py`,
`backend/app/utils/field_mapper.py`, `backend/app/services/mappers/*`).

Modelling conventions (shallow embedding):
* Python `str` is modelled as `List Nat` of Unicode code points (`PyStr`);
  the regex character classes `[A-Z]`, `[a-z]`, `[0-9]` and `str.lower` /
  `str.upper` are modelled on their ASCII ranges, which is exact for the
  identifier-like keys this code converts.
* Python `dict` is modelled as an insertion-ordered association list with
  unique keys; assignment to an existing key replaces its value in place,
  assignment to a fresh key appends (CPython dict semantics).
* `datetime` values are modelled as integer timestamps in seconds;
  `timedelta(days=1)` is 86400 s and `timedelta(seconds=1)` is 1 s
  (naive-datetime arithmetic is exact at this resolution).
* Raised exceptions are modelled with `Except` / `Option`, a `.error` /
  `none` result standing for a raised exception.
-/

set_option autoImplicit false

/-- Python strings as lists of code points. -/
abbrev PyStr := List Nat

/-- Convenience: code points of a Lean string literal. -/
def codes (s : String) : PyStr := s.toList.map Char.toNat

/-- ASCII class `[A-Z]` (Python regex on identifier keys). -/
def isUp (c : Nat) : Bool := decide (65 ≤ c) && decide (c ≤ 90)

/-- ASCII class `[a-z]`. -/
def isLo (c : Nat) : Bool := decide (97 ≤ c) && decide (c ≤ 122)

/-- ASCII class `[0-9]`. -/
def isDig (c : Nat) : Bool := decide (48 ≤ c) && decide (c ≤ 57)

/-- Letters and digits only (the inputs of the fallback case conversion). -/
def isAlnum (c : Nat) : Bool := isUp c || isLo c || isDig c

/-- ASCII `str.lower` on one character. -/
def lowerC (c : Nat) : Nat := if isUp c then c + 32 else c

/-- ASCII `str.upper` on one character. -/
def upperC (c : Nat) : Nat := if isLo c then c - 32 else c

/-- The underscore character. -/
def usc : Nat := 95

/-- True when the list starts with a lowercase letter (the `[a-z]+` part of
the first regex of `FieldMapper.to_snake_case` needs at least one). -/
def headIsLo : List Nat → Bool
  | [] => false
  | c :: _ => isLo c

/-- True when the list starts with an uppercase letter. -/
def headIsUp : List Nat → Bool
  | [] => false
  | c :: _ => isUp c

/-- Model of `re.sub('(.)([A-Z][a-z]+)', r'\1_\2', text)` from
`FieldMapper.to_snake_case` (field_mapper.py line 81): scan left to right,
non-overlapping; a match consumes one arbitrary character, an uppercase
letter and a maximal nonempty run of lowercase letters, and an underscore is
inserted after the first character. -/
def sub1 : List Nat → List Nat
  | [] => []
  | [c] => [c]
  | c :: d :: rest =>
    if isUp d && headIsLo rest then
      c :: usc :: d :: (rest.takeWhile isLo ++ sub1 (rest.dropWhile isLo))
    else
      c :: sub1 (d :: rest)
termination_by l => l.length
decreasing_by
  · simp only [List.length_cons]
    have hs : (List.dropWhile isLo rest).Sublist rest := List.dropWhile_sublist isLo
    have h := hs.length_le
    omega
  · simp only [List.length_cons]
    omega

/-- Model of `re.sub('([a-z0-9])([A-Z])', r'\1_\2', s1)` from
`FieldMapper.to_snake_case` (field_mapper.py line 84): non-overlapping
left-to-right scan; a match consumes a lowercase letter or digit followed by
an uppercase letter and puts an underscore between them. -/
def sub2 : List Nat → List Nat
  | [] => []
  | [c] => [c]
  | c :: d :: rest =>
    if (isLo c || isDig c) && isUp d then
      c :: usc :: d :: sub2 rest
    else
      c :: sub2 (d :: rest)

/-- Model of `str.lower` (ASCII). -/
def pyLower (l : List Nat) : List Nat := l.map lowerC

/-- `FieldMapper.to_snake_case` (field_mapper.py lines 64-86): empty input is
returned as is, otherwise the two regex substitutions run and the result is
lowercased. -/
def to_snake_case (text : PyStr) : PyStr :=
  if text = [] then text else pyLower (sub2 (sub1 text))

/-- Scanning part of `inflection.camelize` past the first character: each
underscore is dropped and the character after it is uppercased (regex
`(?:^|_)(.)` with an uppercasing replacement); a trailing underscore has no
following character and stays. -/
def camelizeRest : List Nat → List Nat
  | [] => []
  | [c] => [c]
  | c :: d :: rest =>
    if c = usc then upperC d :: camelizeRest rest
    else c :: camelizeRest (d :: rest)

/-- Model of `inflection.camelize(string, uppercase_first_letter)`: with the
flag set, the first character is uppercased and underscores collapse as in
`camelizeRest`; with the flag clear the library computes
`string[0].lower() + camelize(string)[1:]`, i.e. the same with the first
character lowercased. -/
def camelize (s : List Nat) (upFirst : Bool) : List Nat :=
  match s with
  | [] => []
  | c :: rest =>
    (if upFirst then upperC c else lowerC c) :: camelizeRest rest

/-- `FieldMapper.to_camel_case` (field_mapper.py lines 88-106): empty input
returned as is, otherwise delegates to `inflection.camelize`. -/
def to_camel_case (text : PyStr) (first_upper : Bool) : PyStr :=
  if text = [] then text else camelize text first_upper

/-- No two adjacent uppercase letters (no acronym runs). -/
def noAdjUp : List Nat → Bool
  | c :: d :: rest => !(isUp c && isUp d) && noAdjUp (d :: rest)
  | _ => true

/-- Canonical camelCase in the sense of spec property P6: letters and digits
only, the string does not start with an uppercase letter (lowercase first
segment), and no two consecutive uppercase letters. -/
def canonicalCamel (l : PyStr) : Bool :=
  l.all isAlnum && !headIsUp l && noAdjUp l

/-- Reference transformation: one underscore inserted before every uppercase
letter. On canonical camelCase inputs the composition of the two regex
substitutions of `to_snake_case` computes exactly this. -/
def insU : List Nat → List Nat
  | [] => []
  | c :: rest => if isUp c then usc :: c :: insU rest else c :: insU rest

/-- Python values as they flow through the field mapper and query builder:
`None`, `bool`, `int`, `str`, naive `datetime` (as an integer timestamp in
seconds), `list` and `dict` (insertion-ordered association list). -/
inductive PyVal where
  | pnone
  | pbool (b : Bool)
  | pint (n : Int)
  | pstr (s : PyStr)
  | pdatetime (t : Int)
  | plist (xs : List PyVal)
  | pdict (entries : List (PyStr × PyVal))

mutual
def pyValDecEq : (a b : PyVal) → Decidable (a = b)
  | .pnone, .pnone => .isTrue rfl
  | .pbool a, .pbool b =>
    if h : a = b then .isTrue (by rw [h]) else .isFalse (fun he => h (by injection he))
  | .pint a, .pint b =>
    if h : a = b then .isTrue (by rw [h]) else .isFalse (fun he => h (by injection he))
  | .pstr a, .pstr b =>
    if h : a = b then .isTrue (by rw [h]) else .isFalse (fun he => h (by injection he))
  | .pdatetime a, .pdatetime b =>
    if h : a = b then .isTrue (by rw [h]) else .isFalse (fun he => h (by injection he))
  | .plist xs, .plist ys =>
    match pyListDecEq xs ys with
    | .isTrue h => .isTrue (by rw [h])
    | .isFalse h => .isFalse (fun he => h (by injection he))
  | .pdict xs, .pdict ys =>
    match pyDictDecEq xs ys with
    | .isTrue h => .isTrue (by rw [h])
    | .isFalse h => .isFalse (fun he => h (by injection he))
  | .pnone, .pbool _ => .isFalse nofun
  | .pnone, .pint _ => .isFalse nofun
  | .pnone, .pstr _ => .isFalse nofun
  | .pnone, .pdatetime _ => .isFalse nofun
  | .pnone, .plist _ => .isFalse nofun
  | .pnone, .pdict _ => .isFalse nofun
  | .pbool _, .pnone => .isFalse nofun
  | .pbool _, .pint _ => .isFalse nofun
  | .pbool _, .pstr _ => .isFalse nofun
  | .pbool _, .pdatetime _ => .isFalse nofun
  | .pbool _, .plist _ => .isFalse nofun
  | .pbool _, .pdict _ => .isFalse nofun
  | .pint _, .pnone => .isFalse nofun
  | .pint _, .pbool _ => .isFalse nofun
  | .pint _, .pstr _ => .isFalse nofun
  | .pint _, .pdatetime _ => .isFalse nofun
  | .pint _, .plist _ => .isFalse nofun
  | .pint _, .pdict _ => .isFalse nofun
  | .pstr _, .pnone => .isFalse nofun
  | .pstr _, .pbool _ => .isFalse nofun
  | .pstr _, .pint _ => .isFalse nofun
  | .pstr _, .pdatetime _ => .isFalse nofun
  | .pstr _, .plist _ => .isFalse nofun
  | .pstr _, .pdict _ => .isFalse nofun
  | .pdatetime _, .pnone => .isFalse nofun
  | .pdatetime _, .pbool _ => .isFalse nofun
  | .pdatetime _, .pint _ => .isFalse nofun
  | .pdatetime _, .pstr _ => .isFalse nofun
  | .pdatetime _, .plist _ => .isFalse nofun
  | .pdatetime _, .pdict _ => .isFalse nofun
  | .plist _, .pnone => .isFalse nofun
  | .plist _, .pbool _ => .isFalse nofun
  | .plist _, .pint _ => .isFalse nofun
  | .plist _, .pstr _ => .isFalse nofun
  | .plist _, .pdatetime _ => .isFalse nofun
  | .plist _, .pdict _ => .isFalse nofun
  | .pdict _, .pnone => .isFalse nofun
  | .pdict _, .pbool _ => .isFalse nofun
  | .pdict _, .pint _ => .isFalse nofun
  | .pdict _, .pstr _ => .isFalse nofun
  | .pdict _, .pdatetime _ => .isFalse nofun
  | .pdict _, .plist _ => .isFalse nofun


def pyListDecEq : (a b : List PyVal) → Decidable (a = b)
  | [], [] => .isTrue rfl
  | [], _ :: _ => .isFalse nofun
  | _ :: _, [] => .isFalse nofun
  | x :: xs, y :: ys =>
    match pyValDecEq x y, pyListDecEq xs ys with
    | .isTrue h1, .isTrue h2 => .isTrue (by rw [h1, h2])
    | .isFalse h1, _ => .isFalse (fun he => h1 (by injection he))
    | _, .isFalse h2 => .isFalse (fun he => h2 (by injection he))

def pyDictDecEq : (a b : List (PyStr × PyVal)) → Decidable (a = b)
  | [], [] => .isTrue rfl
  | [], _ :: _ => .isFalse nofun
  | _ :: _, [] => .isFalse nofun
  | (k, v) :: xs, (k2, v2) :: ys =>
    match decEq k k2, pyValDecEq v v2, pyDictDecEq xs ys with
    | .isTrue h0, .isTrue h1, .isTrue h2 => .isTrue (by rw [h0, h1, h2])
    | .isFalse h0, _, _ =>
      .isFalse (fun he => by
        injection he with hh ht
        exact h0 (congrArg Prod.fst hh))
    | _, .isFalse h1, _ =>
      .isFalse (fun he => by
        injection he with hh ht
        exact h1 (congrArg Prod.snd hh))
    | _, _, .isFalse h2 => .isFalse (fun he => h2 (by injection he))
end

instance : DecidableEq PyVal := pyValDecEq

/-- Decidable equality for `Except` results over decidable components. -/
def exceptDecEq {e a : Type} [DecidableEq e] [DecidableEq a] :
    (x y : Except e a) → Decidable (x = y)
  | .ok x, .ok y =>
    if h : x = y then .isTrue (by rw [h]) else .isFalse (fun he => h (by injection he))
  | .error x, .error y =>
    if h : x = y then .isTrue (by rw [h]) else .isFalse (fun he => h (by injection he))
  | .ok _, .error _ => .isFalse nofun
  | .error _, .ok _ => .isFalse nofun

instance {e a : Type} [DecidableEq e] [DecidableEq a] : DecidableEq (Except e a) :=
  exceptDecEq

/-- CPython `dict` lookup on an insertion-ordered association list. -/
def dget {α : Type} : List (PyStr × α) → PyStr → Option α
  | [], _ => none
  | (k, v) :: rest, key => if k = key then some v else dget rest key

/-- CPython `dict` assignment `d[k] = v`: an existing key keeps its position
and gets the new value, a fresh key is appended at the end. -/
def dictSet {α : Type} : List (PyStr × α) → PyStr → α → List (PyStr × α)
  | [], k, v => [(k, v)]
  | (k1, v1) :: rest, k, v =>
    if k1 = k then (k1, v) :: rest else (k1, v1) :: dictSet rest k v

/-- CPython `dict.update(other)`: assign the other dict's pairs in order. -/
def dictUpdate {α : Type} (d : List (PyStr × α)) (other : List (PyStr × α)) :
    List (PyStr × α) :=
  other.foldl (fun acc kv => dictSet acc kv.1 kv.2) d

/-- The dict comprehension `{v: k for k, v in m.items()}` used to derive
`FieldMapper._reverse_mappings` (field_mapper.py line 62): later duplicate
values overwrite earlier ones. -/
def reverseOf (m : List (PyStr × PyStr)) : List (PyStr × PyStr) :=
  m.foldl (fun acc kv => dictSet acc kv.2 kv.1) []

/-- `FieldMapper.COMMON_MAPPINGS` (field_mapper.py lines 35-47), in source
order. -/
def COMMON_MAPPINGS : List (PyStr × PyStr) :=
  [ (codes "id", codes "id"),
    (codes "created_time", codes "createTime"),
    (codes "updated_time", codes "updateTime"),
    (codes "is_deleted", codes "isDeleted"),
    (codes "role_id", codes "roleId"),
    (codes "role_name", codes "roleName"),
    (codes "role_code", codes "roleCode"),
    (codes "is_system", codes "isSystem") ]

/-- State of a `FieldMapper` instance after `__init__`. -/
structure FieldMapper where
  _mappings : List (PyStr × PyStr)
  _reverse_mappings : List (PyStr × PyStr)

/-- `FieldMapper.__init__` (field_mapper.py lines 49-62): start from a copy of
`COMMON_MAPPINGS`, update with the custom mappings when given, then derive the
reverse table by the value-to-key dict comprehension. -/
def FieldMapper.init (custom_mappings : Option (List (PyStr × PyStr))) :
    FieldMapper :=
  let m := dictUpdate COMMON_MAPPINGS (custom_mappings.getD [])
  { _mappings := m, _reverse_mappings := reverseOf m }

/-- The module-level `default_mapper = FieldMapper()` (field_mapper.py
line 238). -/
def default_mapper : FieldMapper := FieldMapper.init none

/-- The custom mapping table passed by `UserFieldMapper.__init__`
(user_mapper.py lines 27-43), in source order. -/
def userCustomMappings : List (PyStr × PyStr) :=
  [ (codes "id", codes "userId"),
    (codes "create_time", codes "createTime"),
    (codes "update_time", codes "updateTime"),
    (codes "last_login", codes "lastLogin"),
    (codes "dept_id", codes "deptId"),
    (codes "dept_name", codes "deptName"),
    (codes "status", codes "status"),
    (codes "role_ids", codes "roleIds") ]

/-- The `FieldMapper` instance held by `UserFieldMapper` (user_mapper.py
lines 27-43). -/
def userFieldMapper : FieldMapper := FieldMapper.init (some userCustomMappings)

/-- Key translation closure of `FieldMapper.backend_to_frontend`
(field_mapper.py lines 176-186): explicit forward mapping first, fallback to
`to_camel_case`. -/
def b2fKey (fm : FieldMapper) (key : PyStr) : PyStr :=
  match dget fm._mappings key with
  | some v => v
  | none => to_camel_case key false

/-- Key translation closure of `FieldMapper.frontend_to_backend`
(field_mapper.py lines 205-210): explicit reverse mapping first, fallback to
`to_snake_case`. -/
def f2bKey (fm : FieldMapper) (key : PyStr) : PyStr :=
  match dget fm._reverse_mappings key with
  | some v => v
  | none => to_snake_case key

/-- Error value standing for the `RecursionError` raised by
`FieldMapper._convert_keys` past the depth bound. -/
def recursionMsg : PyStr := codes "Maximum recursion depth (10) exceeded"

/-- `FieldMapper._convert_keys` (field_mapper.py lines 108-162), phrased with
the remaining depth budget as fuel: the source checks `depth > max_depth`
(raising `RecursionError`), converts dict keys with `conversion_func` while
rebuilding the dict by assignment in iteration order, recurses into dict
values and list items with `depth + 1`, and returns every other value
unchanged. `fuel = max_depth + 1 - depth`, so the source's entry point
(`depth = 0`, `max_depth = 10`) is `fuel = 11` and a raise happens exactly
when the budget is exhausted. The `mapping_dict` parameter of the source is
unused for key conversion (only `conversion_func` is), so it is dropped
here. -/
def convertKeysFuel (f : PyStr → PyStr) : Nat → PyVal → Except PyStr PyVal
  | 0, _ => .error recursionMsg
  | fuel + 1, .pdict entries =>
    (entries.foldl
      (fun (acc : Except PyStr (List (PyStr × PyVal))) kv =>
        match acc with
        | .error e => .error e
        | .ok accl =>
          match convertKeysFuel f fuel kv.2 with
          | .ok v2 => .ok (dictSet accl (f kv.1) v2)
          | .error e => .error e)
      (.ok [])).map .pdict
  | fuel + 1, .plist xs =>
    (xs.foldl
      (fun (acc : Except PyStr (List PyVal)) x =>
        match acc with
        | .error e => .error e
        | .ok ys =>
          match convertKeysFuel f fuel x with
          | .ok y => .ok (ys ++ [y])
          | .error e => .error e)
      (.ok [])).map .plist
  | _ + 1, v => .ok v

/-- `FieldMapper.backend_to_frontend` (field_mapper.py lines 164-191). -/
def backend_to_frontend (fm : FieldMapper) (data : PyVal) : Except PyStr PyVal :=
  convertKeysFuel (b2fKey fm) 11 data

/-- `FieldMapper.frontend_to_backend` (field_mapper.py lines 193-213). -/
def frontend_to_backend (fm : FieldMapper) (data : PyVal) : Except PyStr PyVal :=
  convertKeysFuel (f2bKey fm) 11 data

/-- A value that `_convert_keys` neither recurses into nor changes (anything
but a dict or a list). -/
def isLeaf : PyVal → Bool
  | .plist _ => false
  | .pdict _ => false
  | _ => true

/-- Truthiness check `is not None` used by `BaseFilterStrategy.validate` and
`QueryBuilder.filter`. -/
def isNoneV : PyVal → Bool
  | .pnone => true
  | _ => false

/-- Python `value == ""`: true exactly for the empty string (equality between
`""` and a value of any other type is false; `bool`/`int` cross-equality
never involves strings). -/
def eqEmptyStr : PyVal → Bool
  | .pstr s => s.isEmpty
  | _ => false

/-- Python `isinstance(value, list) and not value`. -/
def isEmptyList : PyVal → Bool
  | .plist xs => xs.isEmpty
  | _ => false

/-- Python truthiness of a value (`if start:` in `DateTimeRangeFilter`):
`None` and empty containers/strings are falsy, `0` and `False` are falsy,
`datetime` objects are always truthy. -/
def pyTruthy : PyVal → Bool
  | .pnone => false
  | .pbool b => b
  | .pint n => !(n = 0)
  | .pstr s => !s.isEmpty
  | .pdatetime _ => true
  | .plist xs => !xs.isEmpty
  | .pdict es => !es.isEmpty

/-- SQLAlchemy `Select` objects, modelled syntactically: every builder method
(`filter`, `order_by`, `limit`, `offset`) wraps the previous query and
returns a new object. `E` is the type of filter expressions, `F` the type of
sort directives. -/
inductive Select (E F : Type) where
  | base
  | filtered (q : Select E F) (e : E)
  | ordered (q : Select E F) (fs : List F)
  | limited (q : Select E F) (n : Int)
  | offsetted (q : Select E F) (n : Int)

/-- A filter strategy: `apply` builds a new query from a value (`none` stands
for a raised exception), `validate` is the membership test run by
`QueryBuilder.build`. All concrete strategies of query_builder.py inherit
`BaseFilterStrategy.validate` unchanged. -/
structure FilterStrategy (E F : Type) where
  applyF : Select E F → PyVal → Option (Select E F)
  validate : PyVal → Bool

/-- `BaseFilterStrategy.validate` (query_builder.py lines 22-24):
`value is not None and value != ""`. -/
def baseValidate (v : PyVal) : Bool := !isNoneV v && !eqEmptyStr v

/-- Fields of the `SysUser` model referenced by the user query-builder
factory (models/sys_user.py). -/
inductive UserField where
  | username | nickname | email | mobile | status | gender | dept_id
  | create_time
deriving DecidableEq

/-- Sort directives: `field.asc()` / `field.desc()` column expressions. -/
inductive UserOrd where
  | asc (f : UserField)
  | desc (f : UserField)
deriving DecidableEq

/-- Filter expressions producible by the concrete strategies of
query_builder.py. `likeE` carries the raw value interpolated into the
`%...%` pattern; `keywordE` is the `or_` of `ilike`s over several fields. -/
inductive UserExpr where
  | eqE (f : UserField) (v : PyVal)
  | neE (f : UserField) (v : PyVal)
  | likeE (f : UserField) (v : PyVal)
  | keywordE (fs : List UserField) (v : PyVal)
  | geE (f : UserField) (v : PyVal)
  | leE (f : UserField) (v : PyVal)
  | inE (f : UserField) (vs : List PyVal)
  | eqBoolE (f : UserField) (b : Bool)

/-- The user-module query type. -/
abbrev UserSelect := Select UserExpr UserOrd

/-- `EqualFilter` (query_builder.py lines 28-35). -/
def EqualFilter (f : UserField) : FilterStrategy UserExpr UserOrd :=
  { applyF := fun q v => some (q.filtered (.eqE f v)), validate := baseValidate }

/-- `NotEqualFilter` (query_builder.py lines 38-45). -/
def NotEqualFilter (f : UserField) : FilterStrategy UserExpr UserOrd :=
  { applyF := fun q v => some (q.filtered (.neE f v)), validate := baseValidate }

/-- `LikeFilter` (query_builder.py lines 48-55): case-insensitive substring
match `field.ilike(f"%{value}%")`. -/
def LikeFilter (f : UserField) : FilterStrategy UserExpr UserOrd :=
  { applyF := fun q v => some (q.filtered (.likeE f v)), validate := baseValidate }

/-- `MultiFieldKeywordFilter` (query_builder.py lines 58-68): OR of `ilike`
conditions over the given fields. -/
def MultiFieldKeywordFilter (fs : List UserField) : FilterStrategy UserExpr UserOrd :=
  { applyF := fun q v => some (q.filtered (.keywordE fs v)), validate := baseValidate }

/-- `DateTimeRangeFilter.apply` (query_builder.py lines 71-89): on a dict
value, a truthy `start` adds `field >= start` and a truthy `end` adds
`field <= end + timedelta(days=1) - timedelta(seconds=1)`; any other value
leaves the query unchanged. The `timedelta` arithmetic is defined on
`datetime` values (86400 s per day); on a truthy value of another type the
addition raises `TypeError`, modelled as `none`. -/
def DateTimeRangeFilter (f : UserField) : FilterStrategy UserExpr UserOrd :=
  { applyF := fun q v =>
      match v with
      | .pdict d =>
        let start := (dget d (codes "start")).getD .pnone
        let stop := (dget d (codes "end")).getD .pnone
        let q1 := if pyTruthy start then q.filtered (.geE f start) else q
        if pyTruthy stop then
          match stop with
          | .pdatetime t => some (q1.filtered (.leE f (.pdatetime (t + 86400 - 1))))
          | _ => none
        else
          some q1
      | _ => some q,
    validate := baseValidate }

/-- `ValueRangeFilter.apply` (query_builder.py lines 92-108): on a dict value,
a non-`None` `min` adds `field >= min` and a non-`None` `max` adds
`field <= max`. -/
def ValueRangeFilter (f : UserField) : FilterStrategy UserExpr UserOrd :=
  { applyF := fun q v =>
      match v with
      | .pdict d =>
        let mn := (dget d (codes "min")).getD .pnone
        let mx := (dget d (codes "max")).getD .pnone
        let q1 := if isNoneV mn then q else q.filtered (.geE f mn)
        some (if isNoneV mx then q1 else q1.filtered (.leE f mx))
      | _ => some q,
    validate := baseValidate }

/-- `InFilter.apply` (query_builder.py lines 111-120): a nonempty list adds
`field.in_(value)`, anything else leaves the query unchanged. -/
def InFilter (f : UserField) : FilterStrategy UserExpr UserOrd :=
  { applyF := fun q v =>
      match v with
      | .plist xs => some (if xs.isEmpty then q else q.filtered (.inE f xs))
      | _ => some q,
    validate := baseValidate }

/-- ASCII lowercase of a string value, for `BooleanFilter`'s
`value.lower() in ['true', '1', 'yes']`. -/
def strTruthy (s : PyStr) : Bool :=
  pyLower s = codes "true" || pyLower s = codes "1" || pyLower s = codes "yes"

/-- `BooleanFilter.apply` (query_builder.py lines 123-136): `bool` compares
directly (checked before `int`, as in the source, since Python `bool` is an
`int` subclass), `int` compares against `value == 1`, `str` against
membership of its lowercase form in `['true', '1', 'yes']`; other types leave
the query unchanged. -/
def BooleanFilter (f : UserField) : FilterStrategy UserExpr UserOrd :=
  { applyF := fun q v =>
      match v with
      | .pbool b => some (q.filtered (.eqBoolE f b))
      | .pint n => some (q.filtered (.eqBoolE f (n = 1)))
      | .pstr s => some (q.filtered (.eqBoolE f (strTruthy s)))
      | _ => some q,
    validate := baseValidate }

/-- `QueryBuilder` state (query_builder.py lines 140-146): a registry from
strategy name to strategy (a dict) and the accumulated conditions (a list of
`{key, value}` records). The `model_class` constructor argument only feeds
attribute lookups and is carried by the types `E`, `F` here. -/
structure QueryBuilder (E F : Type) where
  strategies : List (PyStr × FilterStrategy E F)
  conditions : List (PyStr × PyVal)

/-- `QueryBuilder.register_strategy` (query_builder.py lines 148-151). -/
def registerStrategy {E F : Type} (b : QueryBuilder E F) (name : PyStr)
    (s : FilterStrategy E F) : QueryBuilder E F :=
  { b with strategies := dictSet b.strategies name s }

/-- Values appended by `QueryBuilder.filter` (query_builder.py lines 189-197):
kept unless the value is `None`, equals `""`, or is an empty list. -/
def keepValue (v : PyVal) : Bool :=
  if isNoneV v then false
  else if eqEmptyStr v then false
  else if isEmptyList v then false
  else true

/-- `QueryBuilder.filter(**kwargs)` (query_builder.py lines 189-197): for each
keyword pair in order, append a `{key, value}` condition unless the value is
skipped. -/
def filterKwargs {E F : Type} (b : QueryBuilder E F)
    (kwargs : List (PyStr × PyVal)) : QueryBuilder E F :=
  { b with
    conditions :=
      kwargs.foldl (fun cs kv => if keepValue kv.2 then cs ++ [kv] else cs)
        b.conditions }

/-- Loop body of `QueryBuilder.build` (query_builder.py lines 199-212) over an
explicit condition list: look the key up among the strategies; if found and
`validate` passes, apply the strategy (propagating a raise), otherwise leave
the query untouched. -/
def buildConds {E F : Type} (strats : List (PyStr × FilterStrategy E F)) :
    List (PyStr × PyVal) → Select E F → Option (Select E F)
  | [], q => some q
  | (k, v) :: rest, q =>
    match dget strats k with
    | some s =>
      if s.validate v then
        match s.applyF q v with
        | some q2 => buildConds strats rest q2
        | none => none
      else buildConds strats rest q
    | none => buildConds strats rest q

/-- `QueryBuilder.build(base_query)` (query_builder.py lines 199-212). -/
def build {E F : Type} (b : QueryBuilder E F) (base_query : Select E F) :
    Option (Select E F) :=
  buildConds b.strategies b.conditions base_query

/-- `QueryBuilder.reset` (query_builder.py lines 214-217):
`self.conditions.clear()` and nothing else. -/
def reset {E F : Type} (b : QueryBuilder E F) : QueryBuilder E F :=
  { b with conditions := [] }

/-- `PaginatedQueryBuilder` state (query_builder.py lines 221-228): the base
builder plus `_offset = 0`, `_limit = 100` and `_order_by = []`. -/
structure PaginatedQueryBuilder (E F : Type) extends QueryBuilder E F where
  _offset : Int
  _limit : Int
  _order_by : List F

/-- `PaginatedQueryBuilder.__init__` (query_builder.py lines 224-228). -/
def PaginatedQueryBuilder.init (E F : Type) : PaginatedQueryBuilder E F :=
  { strategies := [], conditions := [], _offset := 0, _limit := 100,
    _order_by := [] }

/-- `PaginatedQueryBuilder.paginate(offset, limit)` (query_builder.py lines
230-234): stores both integers unchecked. -/
def paginate {E F : Type} (b : PaginatedQueryBuilder E F) (offset limit : Int) :
    PaginatedQueryBuilder E F :=
  { b with _offset := offset, _limit := limit }

/-- `PaginatedQueryBuilder.order_by(*fields)` (query_builder.py lines
236-244) restricted to already-resolved sort directives (the only kind the
repository passes): each is appended to `_order_by`. -/
def order_by {E F : Type} (b : PaginatedQueryBuilder E F) (fields : List F) :
    PaginatedQueryBuilder E F :=
  { b with _order_by := b._order_by ++ fields }

/-- `PaginatedQueryBuilder.register_strategy`, inherited from the base class
(dict assignment into `strategies`). -/
def registerStrategyP {E F : Type} (b : PaginatedQueryBuilder E F)
    (name : PyStr) (s : FilterStrategy E F) : PaginatedQueryBuilder E F :=
  { b with toQueryBuilder := registerStrategy b.toQueryBuilder name s }

/-- `PaginatedQueryBuilder.filter`, inherited from the base class. -/
def filterKwargsP {E F : Type} (b : PaginatedQueryBuilder E F)
    (kwargs : List (PyStr × PyVal)) : PaginatedQueryBuilder E F :=
  { b with toQueryBuilder := filterKwargs b.toQueryBuilder kwargs }

/-- `PaginatedQueryBuilder.reset`, inherited from the base class: only the
condition list is cleared. -/
def resetP {E F : Type} (b : PaginatedQueryBuilder E F) :
    PaginatedQueryBuilder E F :=
  { b with toQueryBuilder := reset b.toQueryBuilder }

/-- `PaginatedQueryBuilder.build_paginated(base_query)` (query_builder.py
lines 246-258): run `build`, then `order_by(*self._order_by)` when any sort
directive is registered, then `limit(self._limit).offset(self._offset)` when
`self._limit` is truthy (a Python `int` is truthy exactly when nonzero). -/
def build_paginated {E F : Type} (b : PaginatedQueryBuilder E F)
    (base_query : Select E F) : Option (Select E F) :=
  (build b.toQueryBuilder base_query).map (fun q =>
    let q1 := if b._order_by.isEmpty then q else q.ordered b._order_by
    if b._limit = 0 then q1 else (q1.limited b._limit).offsetted b._offset)

/-- `hasattr(SysUser, field_name)` for the names used by the factory's
capability table: resolution of a field-name string to the model column
(models/sys_user.py declares all seven). -/
def sysUserField? (name : PyStr) : Option UserField :=
  if name = codes "username" then some .username
  else if name = codes "nickname" then some .nickname
  else if name = codes "email" then some .email
  else if name = codes "mobile" then some .mobile
  else if name = codes "status" then some .status
  else if name = codes "gender" then some .gender
  else if name = codes "dept_id" then some .dept_id
  else if name = codes "create_time" then some .create_time
  else none

/-- `dict.get(key, default)` on a boolean capability table. -/
def cfgGet (cfg : List (PyStr × Bool)) (key : PyStr) (dflt : Bool) : Bool :=
  (dget cfg key).getD dflt

/-- `QueryBuilder.auto_register_field_strategies` (query_builder.py lines
153-187) on the paginated user builder: for each configured field present on
the model, register `__eq` (default on), `__ne` (default off), `__like`
(default off) and `__range` (default off) variants. Note the source handles
no `allow_in` capability. -/
def autoRegisterFieldStrategies (b : PaginatedQueryBuilder UserExpr UserOrd)
    (fields_config : List (PyStr × List (PyStr × Bool))) :
    PaginatedQueryBuilder UserExpr UserOrd :=
  fields_config.foldl
    (fun b fc =>
      match sysUserField? fc.1 with
      | some f =>
        let b := if cfgGet fc.2 (codes "allow_equal") true then
          registerStrategyP b (fc.1 ++ codes "__eq") (EqualFilter f) else b
        let b := if cfgGet fc.2 (codes "allow_not_equal") false then
          registerStrategyP b (fc.1 ++ codes "__ne") (NotEqualFilter f) else b
        let b := if cfgGet fc.2 (codes "allow_like") false then
          registerStrategyP b (fc.1 ++ codes "__like") (LikeFilter f) else b
        let b := if cfgGet fc.2 (codes "allow_range") false then
          registerStrategyP b (fc.1 ++ codes "__range") (ValueRangeFilter f) else b
        b
      | none => b)
    b

/-- `create_user_query_builder` (query_builder.py lines 262-309): the user
query-builder factory, transcribed step by step — the capability table, the
four hand-registered strategies and the default descending sort on
`create_time`. -/
def create_user_query_builder : PaginatedQueryBuilder UserExpr UserOrd :=
  let b := PaginatedQueryBuilder.init UserExpr UserOrd
  let b := autoRegisterFieldStrategies b
    [ (codes "username",
        [(codes "allow_equal", true), (codes "allow_like", true)]),
      (codes "nickname",
        [(codes "allow_equal", true), (codes "allow_like", true)]),
      (codes "email",
        [(codes "allow_equal", true), (codes "allow_like", true)]),
      (codes "mobile",
        [(codes "allow_equal", true), (codes "allow_like", true)]),
      (codes "status",
        [(codes "allow_equal", true), (codes "allow_range", true)]),
      (codes "gender",
        [(codes "allow_equal", true), (codes "allow_range", true)]),
      (codes "dept_id",
        [(codes "allow_equal", true), (codes "allow_in", true)]) ]
  let b := registerStrategyP b (codes "keywords")
    (MultiFieldKeywordFilter [.username, .nickname, .mobile])
  let b := registerStrategyP b (codes "create_time_range")
    (DateTimeRangeFilter .create_time)
  let b := registerStrategyP b (codes "status__in") (InFilter .status)
  let b := registerStrategyP b (codes "dept_id__in") (InFilter .dept_id)
  order_by b [.desc .create_time]

/-- Semantics of a filter expression as a row predicate on the filtered
datetime column: for a record whose column value is the timestamp `t`,
`field >= start` and `field <= end` compare timestamps; expressions over
other columns or with non-datetime bounds do not constrain `t` here. -/
def dtHolds (t : Int) : UserExpr → Bool
  | .geE _ (.pdatetime s) => decide (s ≤ t)
  | .leE _ (.pdatetime e) => decide (t ≤ e)
  | _ => true

/-- A row with column timestamp `t` satisfies the conjunction of all filter
clauses of a query (`order_by`/`limit`/`offset` do not change the WHERE
clause). -/
def satisfiesDt (t : Int) : UserSelect → Bool
  | .base => true
  | .filtered q e => satisfiesDt t q && dtHolds t e
  | .ordered q _ => satisfiesDt t q
  | .limited q _ => satisfiesDt t q
  | .offsetted q _ => satisfiesDt t q

/-- A permission row: `perm.code` (models/sys_permission.py). -/
structure PermE where
  code : PyStr

/-- A role row with its loaded `permissions` collection and display name
(models/sys_role.py). The `hasattr` probes of the source are always true on
loaded ORM objects. -/
structure RoleE where
  code : PyStr
  name : PyStr
  permissions : List PermE

/-- A `SysUser` ORM entity as consumed by `UserFieldMapper`: UUID-valued
columns are carried in their string form (the source only ever applies
`str(...)` to them), nullable columns are `Option`. -/
structure SysUserE where
  id : Option PyStr
  username : PyStr
  nickname : Option PyStr
  avatar : Option PyStr
  gender : Option Int
  mobile : Option PyStr
  email : Option PyStr
  status : Option Int
  dept_id : Option PyStr
  create_time : Option Int
  roles : List RoleE

/-- `UserFieldMapper._extract_base_data` (user_mapper.py lines 130-149):
build the ten-entry dict (with `str(...)` of truthy UUIDs, the
`nickname or username` fallback, the raw datetime) and drop `None` values. -/
def extractBaseData (user : SysUserE) : List (PyStr × PyVal) :=
  let optStr : Option PyStr → PyVal := fun v =>
    match v with
    | some s => .pstr s
    | none => .pnone
  let optInt : Option Int → PyVal := fun v =>
    match v with
    | some n => .pint n
    | none => .pnone
  let data : List (PyStr × PyVal) :=
    [ (codes "id", optStr user.id),
      (codes "username", .pstr user.username),
      (codes "nickname",
        match user.nickname with
        | some n => if n.isEmpty then .pstr user.username else .pstr n
        | none => .pstr user.username),
      (codes "avatar", optStr user.avatar),
      (codes "gender", optInt user.gender),
      (codes "mobile", optStr user.mobile),
      (codes "email", optStr user.email),
      (codes "status", optInt user.status),
      (codes "dept_id", optStr user.dept_id),
      (codes "create_time",
        match user.create_time with
        | some t => .pdatetime t
        | none => .pnone) ]
  data.filter (fun kv => !isNoneV kv.2)

/-- Python `set.add` observed through the final `list(...)`: membership-based
insertion, each element kept once. -/
def setAdd (s : List PyStr) (x : PyStr) : List PyStr :=
  if x ∈ s then s else s ++ [x]

/-- `UserFieldMapper._extract_permission_codes` (user_mapper.py lines
249-258), identical to `UserRoleDataExtractor.extract_permission_codes`
(extractors.py lines 57-66): pool `perm.code` over all roles' permissions
through a `set`, then return it as a list. The `hasattr` probes are always
true on loaded ORM objects, and a user without roles yields the empty
list either way. -/
def extract_permission_codes (user : SysUserE) : List PyStr :=
  user.roles.foldl
    (fun acc role => role.permissions.foldl (fun a p => setAdd a p.code) acc)
    []

/-- `UserFieldMapper._extract_role_codes` (user_mapper.py lines 240-247). -/
def extract_role_codes (user : SysUserE) : List PyStr :=
  user.roles.foldl (fun acc role => acc ++ [role.code]) []

/-- `UserFieldMapper._convert_to_format` (user_mapper.py lines 109-128),
with the four `_build_*` format builders passed as parameters: extract the
base data, then dispatch on the format-type string through the four string
comparisons, raising `ValueError` (modelled as `.error`) on anything else. -/
def convertToFormat {α : Type}
    (buildMeResponse buildProfile buildListItem buildDetail :
      List (PyStr × PyVal) → SysUserE → α)
    (user : SysUserE) (format_type : PyStr) : Except PyStr α :=
  let base_data := extractBaseData user
  if format_type = codes "me_response" then .ok (buildMeResponse base_data user)
  else if format_type = codes "profile" then .ok (buildProfile base_data user)
  else if format_type = codes "list_item" then .ok (buildListItem base_data user)
  else if format_type = codes "detail" then .ok (buildDetail base_data user)
  else .error (codes "Unknown format type: " ++ format_type)

/-- The format names `_convert_to_format` dispatches on (the four branch
guards of user_mapper.py lines 119-126). `FormatType` in
mappers/constants.py additionally declares `FORM = "form"`, which has no
branch and therefore raises. -/
def recognizedFormats : List PyStr :=
  [codes "me_response", codes "profile", codes "list_item", codes "detail"]

/-- Whether an `Except`-modelled call returned normally. -/
def isOkE {ε α : Type} : Except ε α → Bool
  | .ok _ => true
  | .error _ => false

/-- Spec Scenario-D/P7 entity: two roles that both grant `user:read`. -/
def demoUser : SysUserE :=
  { id := some (codes "user-123"), username := codes "testuser",
    nickname := some (codes "Tester"), avatar := none, gender := some 1,
    mobile := none, email := none, status := some 1, dept_id := none,
    create_time := some 1704067200,
    roles :=
      [ { code := codes "ADMIN", name := codes "Admin",
          permissions := [{ code := codes "user:read" }] },
        { code := codes "EDITOR", name := codes "Editor",
          permissions :=
            [{ code := codes "user:read" }, { code := codes "user:write" }] } ] }

/-! Helper lemmas: ASCII character classes. -/

theorem isUp_iff {c : Nat} : isUp c = true ↔ 65 ≤ c ∧ c ≤ 90 := by simp [isUp]

theorem isLo_iff {c : Nat} : isLo c = true ↔ 97 ≤ c ∧ c ≤ 122 := by simp [isLo]

theorem isDig_iff {c : Nat} : isDig c = true ↔ 48 ≤ c ∧ c ≤ 57 := by simp [isDig]

theorem isLo_of_up {c : Nat} (h : isUp c = true) : isLo c = false := by
  rw [isUp_iff] at h
  rw [Bool.eq_false_iff, Ne, isLo_iff]
  omega

theorem isDig_of_up {c : Nat} (h : isUp c = true) : isDig c = false := by
  rw [isUp_iff] at h
  rw [Bool.eq_false_iff, Ne, isDig_iff]
  omega

theorem isUp_of_lo {c : Nat} (h : isLo c = true) : isUp c = false := by
  rw [isLo_iff] at h
  rw [Bool.eq_false_iff, Ne, isUp_iff]
  omega

theorem alnum_lo_or_dig {c : Nat} (ha : isAlnum c = true) (hu : isUp c = false) :
    (isLo c || isDig c) = true := by
  simp only [isAlnum, Bool.or_eq_true, isUp_iff, isLo_iff, isDig_iff] at ha
  rw [Bool.eq_false_iff, Ne, isUp_iff] at hu
  simp only [Bool.or_eq_true, isLo_iff, isDig_iff]
  omega

theorem alnum_ne_usc {c : Nat} (h : isAlnum c = true) : c ≠ usc := by
  simp only [isAlnum, Bool.or_eq_true, isUp_iff, isLo_iff, isDig_iff] at h
  simp only [usc]
  omega

theorem isUp_usc : isUp usc = false := by decide

theorem isLo_usc : isLo usc = false := by decide

theorem isDig_usc : isDig usc = false := by decide

theorem lowerC_usc : lowerC usc = usc := by decide

theorem lowerC_of_not_up {c : Nat} (h : isUp c = false) : lowerC c = c := by
  simp [lowerC, h]

theorem upperC_lowerC {c : Nat} (h : isUp c = true) : upperC (lowerC c) = c := by
  have h2 := isUp_iff.mp h
  rw [lowerC, if_pos h, upperC, if_pos (isLo_iff.mpr (by omega))]
  omega

/-! Helper lemmas: lists of characters. -/

theorem all_dropWhile (p q : Nat → Bool) :
    ∀ l : List Nat, l.all q = true → (l.dropWhile p).all q = true
  | [] => fun _ => by simp
  | c :: l => fun h => by
    have h1 : q c = true ∧ l.all q = true := by simpa using h
    rw [List.dropWhile_cons]
    cases hp : p c with
    | true => simpa using all_dropWhile p q l h1.2
    | false => simpa using h1

theorem all_takeWhile_self (p : Nat → Bool) :
    ∀ l : List Nat, (l.takeWhile p).all p = true
  | [] => by simp
  | c :: l => by
    rw [List.takeWhile_cons]
    cases hp : p c with
    | true => simp [hp, all_takeWhile_self p l]
    | false => simp

theorem noAdjUp_tail {c : Nat} {l : List Nat} (h : noAdjUp (c :: l) = true) :
    noAdjUp l = true := by
  cases l with
  | nil => rfl
  | cons d rest =>
    have h2 : noAdjUp (c :: d :: rest) =
        (!(isUp c && isUp d) && noAdjUp (d :: rest)) := rfl
    rw [h2, Bool.and_eq_true] at h
    exact h.2

theorem noAdjUp_dropWhile :
    ∀ l : List Nat, noAdjUp l = true → noAdjUp (l.dropWhile isLo) = true
  | [] => fun h => by simpa using h
  | c :: l => fun h => by
    rw [List.dropWhile_cons]
    cases hc : isLo c with
    | true => exact noAdjUp_dropWhile l (noAdjUp_tail h)
    | false => simpa using h

theorem headIsLo_dropWhile : ∀ l : List Nat, headIsLo (l.dropWhile isLo) = false
  | [] => rfl
  | c :: l => by
    rw [List.dropWhile_cons]
    cases hc : isLo c with
    | true => simpa using headIsLo_dropWhile l
    | false => simpa [headIsLo] using hc

theorem sub1_nil : sub1 [] = [] := by simp [sub1]

theorem sub1_single (c : Nat) : sub1 [c] = [c] := by simp [sub1]

theorem sub1_match {c d : Nat} {rest : List Nat} (h1 : isUp d = true)
    (h2 : headIsLo rest = true) :
    sub1 (c :: d :: rest) =
      c :: usc :: d :: (rest.takeWhile isLo ++ sub1 (rest.dropWhile isLo)) := by
  rw [sub1]
  simp [h1, h2]

theorem sub1_nomatch {c d : Nat} {rest : List Nat}
    (h : (isUp d && headIsLo rest) = false) :
    sub1 (c :: d :: rest) = c :: sub1 (d :: rest) := by
  rw [sub1]
  simp [h]

theorem sub1_cons_head (c : Nat) (l : List Nat) : ∃ t, sub1 (c :: l) = c :: t := by
  cases l with
  | nil => exact ⟨[], sub1_single c⟩
  | cons d rest =>
    cases h : (isUp d && headIsLo rest) with
    | true =>
      rw [Bool.and_eq_true] at h
      exact ⟨_, sub1_match h.1 h.2⟩
    | false => exact ⟨_, sub1_nomatch h⟩

theorem sub2_match {c d : Nat} {rest : List Nat}
    (h : ((isLo c || isDig c) && isUp d) = true) :
    sub2 (c :: d :: rest) = c :: usc :: d :: sub2 rest := by
  simp [sub2, h]

theorem sub2_nomatch {c d : Nat} {rest : List Nat}
    (h : ((isLo c || isDig c) && isUp d) = false) :
    sub2 (c :: d :: rest) = c :: sub2 (d :: rest) := by
  simp [sub2, h]

theorem sub2_run_notUp :
    ∀ (run l : List Nat), run.all isLo = true → headIsUp l = false →
      sub2 (run ++ l) = run ++ sub2 l
  | [], l => fun _ _ => by simp
  | [r], l => fun hr hl => by
    cases l with
    | nil => simp [sub2]
    | cons x xs =>
      have hx : isUp x = false := by simpa [headIsUp] using hl
      rw [List.singleton_append, sub2_nomatch (by simp [hx]), List.singleton_append]
  | r1 :: r2 :: run, l => fun hr hl => by
    have h1 : isLo r1 = true ∧ isLo r2 = true ∧ run.all isLo = true := by
      simpa using hr
    have hr2 : isUp r2 = false := isUp_of_lo h1.2.1
    rw [List.cons_append, List.cons_append, sub2_nomatch (by simp [hr2]),
      ← List.cons_append,
      sub2_run_notUp (r2 :: run) l (by simp [h1.2.1, h1.2.2]) hl]
    simp

theorem sub2_run_up :
    ∀ (r : Nat) (run : List Nat) (U : Nat) (z : List Nat),
      (r :: run).all isLo = true → isUp U = true →
      sub2 ((r :: run) ++ U :: z) = (r :: run) ++ usc :: U :: sub2 z
  | r, [], U, z => fun hr hU => by
    have h1 : isLo r = true := by simpa using hr
    rw [List.singleton_append, sub2_match (by simp [h1, hU]), List.singleton_append]
  | r, r2 :: run, U, z => fun hr hU => by
    have h1 : isLo r = true ∧ isLo r2 = true ∧ run.all isLo = true := by
      simpa using hr
    have hr2 : isUp r2 = false := isUp_of_lo h1.2.1
    rw [List.cons_append, List.cons_append, sub2_nomatch (by simp [hr2]),
      ← List.cons_append,
      sub2_run_up r2 run U z (by simp [h1.2.1, h1.2.2]) hU]
    simp

theorem insU_notUp {c : Nat} {rest : List Nat} (h : isUp c = false) :
    insU (c :: rest) = c :: insU rest := by
  simp [insU, h]

theorem insU_up {c : Nat} {rest : List Nat} (h : isUp c = true) :
    insU (c :: rest) = usc :: c :: insU rest := by
  simp [insU, h]

theorem insU_append_lo :
    ∀ (run l : List Nat), run.all isLo = true → insU (run ++ l) = run ++ insU l
  | [], l => fun _ => by simp
  | r :: run, l => fun hr => by
    have h1 : isLo r = true ∧ run.all isLo = true := by simpa using hr
    rw [List.cons_append, insU_notUp (isUp_of_lo h1.1),
      insU_append_lo run l h1.2, List.cons_append]

theorem noAdjUp_head2 {c d : Nat} {l : List Nat}
    (h : noAdjUp (c :: d :: l) = true) (hc : isUp c = true) : isUp d = false := by
  have h2 : (!(isUp c && isUp d) && noAdjUp (d :: l)) = true := h
  rw [Bool.and_eq_true, hc] at h2
  simpa using h2.1

theorem headIsUp_of_noAdjUp {c : Nat} {l : List Nat}
    (h : noAdjUp (c :: l) = true) (hc : isUp c = true) : headIsUp l = false := by
  cases l with
  | nil => rfl
  | cons d rest => simpa [headIsUp] using noAdjUp_head2 h hc

theorem sub1_step {g : Nat} {l : List Nat} (h : headIsUp l = false) :
    sub1 (g :: l) = g :: sub1 l := by
  cases l with
  | nil => rw [sub1_single, sub1_nil]
  | cons e rest =>
    have he : isUp e = false := by simpa [headIsUp] using h
    exact sub1_nomatch (by simp [he])

theorem subsMain : ∀ n : Nat,
    (∀ x : List Nat, x.length ≤ n → x.all isAlnum = true → noAdjUp x = true →
      headIsUp x = false → sub2 (sub1 x) = insU x) ∧
    (∀ (r : Nat) (run y : List Nat), isLo r = true → run.all isLo = true →
      y.all isAlnum = true → noAdjUp y = true → headIsLo y = false →
      y.length ≤ n →
      sub2 ((r :: run) ++ sub1 y) = (r :: run) ++ insU y) := by
  intro n
  induction n with
  | zero =>
    constructor
    · intro x hl _ _ _
      have hx : x = [] := List.eq_nil_of_length_eq_zero (Nat.le_zero.mp hl)
      subst hx
      rw [sub1_nil]
      rfl
    · intro r run y hrlo hrun _ _ _ hylen
      have hy : y = [] := List.eq_nil_of_length_eq_zero (Nat.le_zero.mp hylen)
      subst hy
      have h := sub2_run_notUp (r :: run) [] (by simp [hrlo, hrun]) rfl
      rw [sub1_nil, show insU ([] : List Nat) = [] from rfl]
      rw [show sub2 ([] : List Nat) = [] from rfl] at h
      exact h
  | succ n ihS =>
    obtain ⟨ihP, ihQ⟩ := ihS
    have Pm : ∀ x : List Nat, x.length ≤ n + 1 → x.all isAlnum = true →
        noAdjUp x = true → headIsUp x = false → sub2 (sub1 x) = insU x := by
      intro x hl ha hn hh
      rcases x with _ | ⟨c, _ | ⟨d, rest⟩⟩
      · rw [sub1_nil]; rfl
      · have hc : isUp c = false := by simpa [headIsUp] using hh
        rw [sub1_single]
        simp [sub2, insU, hc]
      · have hcup : isUp c = false := by simpa [headIsUp] using hh
        simp only [List.all_cons, Bool.and_eq_true] at ha
        obtain ⟨hca1, hca2, hca3⟩ := ha
        have hcd : (isLo c || isDig c) = true := alnum_lo_or_dig hca1 hcup
        have hnd : noAdjUp (d :: rest) = true := noAdjUp_tail hn
        have hnrest : noAdjUp rest = true := noAdjUp_tail hnd
        have hlen : rest.length + 2 ≤ n + 1 := by
          simpa [List.length_cons] using hl
        cases hd : isUp d with
        | false =>
          rw [sub1_nomatch (by simp [hd])]
          obtain ⟨t, ht⟩ := sub1_cons_head d rest
          rw [ht, sub2_nomatch (by simp [hd]), ← ht,
            ihP (d :: rest) (by simp only [List.length_cons]; omega)
              (by simp [hca2, hca3]) hnd (by simpa [headIsUp] using hd),
            insU_notUp hcup]
        | true =>
          cases hr : headIsLo rest with
          | false =>
            rw [sub1_nomatch (by simp [hr])]
            rcases rest with _ | ⟨e, rest4⟩
            · rw [sub1_single, sub2_match (by simp [hcd, hd]),
                insU_notUp hcup, insU_up hd]
              rfl
            · have he_up : isUp e = false := noAdjUp_head2 hnd hd
              simp only [List.length_cons] at hlen
              rw [sub1_nomatch (show (isUp e && headIsLo rest4) = false by
                  simp [he_up]),
                sub2_match (by simp [hcd, hd]),
                ihP (e :: rest4) (by simp only [List.length_cons]; omega)
                  hca3 hnrest (by simpa [headIsUp] using he_up),
                insU_notUp hcup, insU_up hd]
          | true =>
            rcases rest with _ | ⟨r, rest2⟩
            · simp [headIsLo] at hr
            · have hrlo : isLo r = true := by simpa [headIsLo] using hr
              simp only [List.all_cons, Bool.and_eq_true] at hca3
              obtain ⟨hra, hr2a⟩ := hca3
              simp only [List.length_cons] at hlen
              have htws : (rest2.takeWhile isLo).all isLo = true :=
                all_takeWhile_self isLo rest2
              have hsplit : rest2.takeWhile isLo ++ rest2.dropWhile isLo = rest2 :=
                List.takeWhile_append_dropWhile isLo rest2
              have hdlen : (rest2.dropWhile isLo).length ≤ rest2.length := by
                have hs : (rest2.dropWhile isLo).Sublist rest2 :=
                  List.dropWhile_sublist isLo
                exact hs.length_le
              have hq := ihQ r (rest2.takeWhile isLo) (rest2.dropWhile isLo)
                hrlo htws (all_dropWhile isLo isAlnum rest2 hr2a)
                (noAdjUp_dropWhile rest2 (noAdjUp_tail hnrest))
                (headIsLo_dropWhile rest2) (by omega)
              have htw : (r :: rest2).takeWhile isLo =
                  r :: rest2.takeWhile isLo := by
                simp [List.takeWhile_cons, hrlo]
              have hdw : (r :: rest2).dropWhile isLo = rest2.dropWhile isLo := by
                simp [List.dropWhile_cons, hrlo]
              rw [sub1_match hd hr, htw, hdw,
                sub2_nomatch (by simp [isUp_usc]),
                sub2_nomatch (by simp [isLo_usc, isDig_usc])]
              simp only [List.cons_append] at hq ⊢
              rw [sub2_nomatch (by simp [isLo_of_up hd, isDig_of_up hd]), hq,
                insU_notUp hcup, insU_up hd, insU_notUp (isUp_of_lo hrlo)]
              have hins : insU rest2 =
                  rest2.takeWhile isLo ++ insU (rest2.dropWhile isLo) := by
                conv_lhs => rw [← hsplit]
                rw [insU_append_lo (rest2.takeWhile isLo) (rest2.dropWhile isLo)
                  htws]
              rw [hins]
    refine ⟨Pm, ?_⟩
    intro r run y hrlo hrun hy_all hy_adj hy_lo hylen
    rcases y with _ | ⟨g, y3⟩
    · have h := sub2_run_notUp (r :: run) [] (by simp [hrlo, hrun]) rfl
      rw [sub1_nil, show insU ([] : List Nat) = [] from rfl]
      rw [show sub2 ([] : List Nat) = [] from rfl] at h
      exact h
    · have hglo : isLo g = false := by simpa [headIsLo] using hy_lo
      cases hg : isUp g with
      | false =>
        obtain ⟨t, ht⟩ := sub1_cons_head g y3
        rw [ht,
          sub2_run_notUp (r :: run) (g :: t) (by simp [hrlo, hrun])
            (by simpa [headIsUp] using hg),
          ← ht,
          Pm (g :: y3) hylen hy_all hy_adj (by simpa [headIsUp] using hg)]
      | true =>
        have h3 : headIsUp y3 = false := headIsUp_of_noAdjUp hy_adj hg
        simp only [List.all_cons, Bool.and_eq_true] at hy_all
        simp only [List.length_cons] at hylen
        rw [sub1_step h3,
          sub2_run_up r run g (sub1 y3) (by simp [hrlo, hrun]) hg,
          Pm y3 (by omega) hy_all.2 (noAdjUp_tail hy_adj) h3,
          insU_up hg]

theorem camelizeRest_cons_ne {c : Nat} {l : List Nat} (h : c ≠ usc) :
    camelizeRest (c :: l) = c :: camelizeRest l := by
  cases l with
  | nil => simp [camelizeRest]
  | cons d rest => simp [camelizeRest, h]

theorem camelizeRest_lower_insU :
    ∀ x : List Nat, x.all isAlnum = true → camelizeRest (pyLower (insU x)) = x
  | [] => fun _ => rfl
  | c :: rest => fun ha => by
    have h1 : isAlnum c = true ∧ rest.all isAlnum = true := by simpa using ha
    cases hc : isUp c with
    | true =>
      rw [insU_up hc]
      show camelizeRest (lowerC usc :: lowerC c :: pyLower (insU rest)) = c :: rest
      rw [lowerC_usc,
        show camelizeRest (usc :: lowerC c :: pyLower (insU rest)) =
          upperC (lowerC c) :: camelizeRest (pyLower (insU rest)) from by
            simp [camelizeRest],
        upperC_lowerC hc, camelizeRest_lower_insU rest h1.2]
    | false =>
      rw [insU_notUp hc]
      show camelizeRest (lowerC c :: pyLower (insU rest)) = c :: rest
      rw [lowerC_of_not_up hc, camelizeRest_cons_ne (alnum_ne_usc h1.1),
        camelizeRest_lower_insU rest h1.2]

theorem camelize_lower_insU {x : List Nat} (ha : x.all isAlnum = true)
    (hh : headIsUp x = false) : camelize (pyLower (insU x)) false = x := by
  cases x with
  | nil => rfl
  | cons c rest =>
    have h1 : isAlnum c = true ∧ rest.all isAlnum = true := by simpa using ha
    have hc : isUp c = false := by simpa [headIsUp] using hh
    rw [insU_notUp hc]
    show camelize (lowerC c :: pyLower (insU rest)) false = c :: rest
    rw [show camelize (lowerC c :: pyLower (insU rest)) false =
        lowerC (lowerC c) :: camelizeRest (pyLower (insU rest)) from rfl,
      lowerC_of_not_up hc, lowerC_of_not_up hc,
      camelizeRest_lower_insU rest h1.2]

/-- C9: for every canonical camelCase string (letters and digits only,
lowercase first segment), the fallback conversions round-trip:
`to_camel_case (to_snake_case x) == x`. -/
theorem case_conversion_roundtrip (x : PyStr) (h : canonicalCamel x = true) :
    to_camel_case (to_snake_case x) false = x := by
  simp only [canonicalCamel, Bool.and_eq_true] at h
  obtain ⟨⟨ha, hh⟩, hn⟩ := h
  have hh2 : headIsUp x = false := by simpa using hh
  cases x with
  | nil => rfl
  | cons c rest =>
    have hsnake : to_snake_case (c :: rest) = pyLower (insU (c :: rest)) := by
      rw [to_snake_case, if_neg (by simp),
        (subsMain (c :: rest).length).1 (c :: rest) le_rfl ha hn hh2]
    have hc : isUp c = false := by simpa [headIsUp] using hh2
    have hne : pyLower (insU (c :: rest)) ≠ [] := by
      rw [insU_notUp hc]
      simp [pyLower]
    rw [hsnake, to_camel_case, if_neg hne]
    exact camelize_lower_insU ha hh2

theorem case_conversion_roundtrip_witness :
    canonicalCamel (codes "userId2Name") = true ∧
      to_camel_case (to_snake_case (codes "userId2Name")) false =
        codes "userId2Name" :=
  ⟨by decide, case_conversion_roundtrip (codes "userId2Name") (by decide)⟩

theorem keepValue_false_iff {v : PyVal} :
    keepValue v = false ↔ (v = .pnone ∨ v = .pstr [] ∨ v = .plist []) := by
  cases v <;>
    simp [keepValue, isNoneV, eqEmptyStr, isEmptyList, List.isEmpty_iff]

theorem filterKwargs_single {E F : Type} (b : QueryBuilder E F) (k : PyStr)
    (v : PyVal) :
    filterKwargs b [(k, v)] =
      if keepValue v then { b with conditions := b.conditions ++ [(k, v)] }
      else b := by
  cases hk : keepValue v <;> cases b <;> simp [filterKwargs, hk]

/-- C5: `QueryBuilder.filter` appends a condition exactly when the value is
neither `None` nor `""` nor `[]`; dropped values leave both the condition
list and any built query unchanged, while the falsy-but-meaningful values
`0` and `False` are appended. -/
theorem filter_empty_value_policy :
    ∀ (E F : Type) (b : QueryBuilder E F) (k : PyStr) (v : PyVal)
      (q0 : Select E F),
      ((v = .pnone ∨ v = .pstr [] ∨ v = .plist []) →
        (filterKwargs b [(k, v)]).conditions = b.conditions ∧
        build (filterKwargs b [(k, v)]) q0 = build b q0) ∧
      (v ≠ .pnone → v ≠ .pstr [] → v ≠ .plist [] →
        (filterKwargs b [(k, v)]).conditions = b.conditions ++ [(k, v)]) ∧
      (filterKwargs b [(k, .pint 0)]).conditions =
        b.conditions ++ [(k, .pint 0)] ∧
      (filterKwargs b [(k, .pbool false)]).conditions =
        b.conditions ++ [(k, .pbool false)] := by
  intro E F b k v q0
  refine ⟨fun h => ?_, fun h1 h2 h3 => ?_, ?_, ?_⟩
  · have hk : keepValue v = false := keepValue_false_iff.mpr h
    rw [filterKwargs_single, if_neg (by simp [hk])]
    exact ⟨rfl, rfl⟩
  · have hk : keepValue v = true := by
      cases hkk : keepValue v with
      | true => rfl
      | false =>
        rcases keepValue_false_iff.mp hkk with h | h | h
        · exact absurd h h1
        · exact absurd h h2
        · exact absurd h h3
    rw [filterKwargs_single, if_pos (by simp [hk])]
  · rw [filterKwargs_single, if_pos (by decide)]
  · rw [filterKwargs_single, if_pos (by decide)]

theorem filter_empty_value_policy_witness :
    (filterKwargs (⟨[], []⟩ : QueryBuilder Unit Unit)
      [(codes "status", .pnone)]).conditions = [] ∧
    (filterKwargs (⟨[], []⟩ : QueryBuilder Unit Unit)
      [(codes "status", .pint 0)]).conditions = [(codes "status", .pint 0)] :=
  ⟨((filter_empty_value_policy Unit Unit ⟨[], []⟩ (codes "status") .pnone
      .base).1 (Or.inl rfl)).1,
    (filter_empty_value_policy Unit Unit ⟨[], []⟩ (codes "status") (.pint 0)
      .base).2.2.1⟩

theorem buildConds_skip {E F : Type} (strats : List (PyStr × FilterStrategy E F))
    (k : PyStr) (v : PyVal)
    (hskip : dget strats k = none ∨
      ∃ s : FilterStrategy E F, dget strats k = some s ∧ s.validate v = false) :
    ∀ (l1 l2 : List (PyStr × PyVal)) (q0 : Select E F),
      buildConds strats (l1 ++ (k, v) :: l2) q0 = buildConds strats (l1 ++ l2) q0
  | [], l2, q0 => by
    rcases hskip with h | ⟨s, hs, hval⟩
    · simp [buildConds, h]
    · simp [buildConds, hs, hval]
  | (k1, v1) :: l1, l2, q0 => by
    rw [List.cons_append, List.cons_append]
    cases hg : dget strats k1 with
    | none =>
      simp only [buildConds, hg]
      exact buildConds_skip strats k v hskip l1 l2 q0
    | some s =>
      cases hv : s.validate v1 with
      | false =>
        simp only [buildConds, hg, hv, Bool.false_eq_true, if_false]
        exact buildConds_skip strats k v hskip l1 l2 q0
      | true =>
        simp only [buildConds, hg, hv, if_true]
        cases ha : s.applyF q0 v1 with
        | none => rfl
        | some q2 => exact buildConds_skip strats k v hskip l1 l2 q2

/-- C6: a condition whose key has no registered strategy, or whose value
fails the strategy's `validate`, is silently dropped by `QueryBuilder.build`:
no exception (the model stays in the success branch) and the built query is
the one built without that condition. -/
theorem build_unknown_key_silent :
    ∀ (E F : Type) (b : QueryBuilder E F) (q0 : Select E F) (k : PyStr)
      (v : PyVal) (l1 l2 : List (PyStr × PyVal)),
      b.conditions = l1 ++ (k, v) :: l2 →
      (dget b.strategies k = none →
        build b q0 = build { b with conditions := l1 ++ l2 } q0) ∧
      (∀ s : FilterStrategy E F, dget b.strategies k = some s →
        s.validate v = false →
        build b q0 = build { b with conditions := l1 ++ l2 } q0) := by
  intro E F b q0 k v l1 l2 hcond
  constructor
  · intro h
    show buildConds b.strategies b.conditions q0 = buildConds b.strategies (l1 ++ l2) q0
    rw [hcond]
    exact buildConds_skip b.strategies k v (Or.inl h) l1 l2 q0
  · intro s hs hval
    show buildConds b.strategies b.conditions q0 = buildConds b.strategies (l1 ++ l2) q0
    rw [hcond]
    exact buildConds_skip b.strategies k v (Or.inr ⟨s, hs, hval⟩) l1 l2 q0

theorem build_unknown_key_silent_witness :
    build (⟨[], [(codes "bogus", .pint 1)]⟩ : QueryBuilder Unit Unit) .base =
      build (⟨[], []⟩ : QueryBuilder Unit Unit) .base :=
  (build_unknown_key_silent Unit Unit ⟨[], [(codes "bogus", .pint 1)]⟩ .base
    (codes "bogus") (.pint 1) [] [] rfl).1 rfl

/-- C10: `reset` on a `PaginatedQueryBuilder` clears only the accumulated
condition list; the strategy registry, offset, limit and sort directives all
survive, including the factory's default descending sort on `create_time`
and its default window. -/
theorem reset_clears_only_conditions :
    ∀ (E F : Type) (b : PaginatedQueryBuilder E F),
      (resetP b).conditions = [] ∧
      (resetP b).strategies = b.strategies ∧
      (resetP b)._offset = b._offset ∧
      (resetP b)._limit = b._limit ∧
      (resetP b)._order_by = b._order_by ∧
      (resetP (filterKwargsP create_user_query_builder
        [(codes "status__eq", .pint 1)]))._order_by =
        [.desc .create_time] ∧
      (resetP create_user_query_builder)._limit = 100 ∧
      (resetP create_user_query_builder)._offset = 0 :=
  fun _ _ _ => ⟨rfl, rfl, rfl, rfl, rfl, rfl, rfl, rfl⟩

/-- C3: `DateTimeRangeFilter` on `{start: S, end: D}` builds the predicate
`field >= S AND field <= D + 1 day - 1 second`; a row timestamped anywhere in
the end day satisfies it. In particular, for start 2024-01-01 and end
2024-01-31 (epoch seconds 1704067200 and 1706659200), the timestamp
2024-01-31 23:59:59 (1706745599) is included and 2024-02-01 00:00:00
(1706745600) is excluded. -/
theorem datetime_range_inclusive :
    ∀ (S D t : Int) (f : UserField) (q q2 : UserSelect),
      (DateTimeRangeFilter f).applyF q
          (.pdict [(codes "start", .pdatetime S), (codes "end", .pdatetime D)]) =
        some ((q.filtered (.geE f (.pdatetime S))).filtered
          (.leE f (.pdatetime (D + 86400 - 1)))) ∧
      (satisfiesDt t
          ((q2.filtered (.geE f (.pdatetime S))).filtered
            (.leE f (.pdatetime (D + 86400 - 1)))) =
        (satisfiesDt t q2 && (decide (S ≤ t) && decide (t ≤ D + 86400 - 1)))) ∧
      satisfiesDt 1706745599
        ((Select.base.filtered (.geE UserField.create_time (.pdatetime 1704067200))).filtered
          (.leE UserField.create_time (.pdatetime (1706659200 + 86400 - 1)))) = true ∧
      satisfiesDt 1706745600
        ((Select.base.filtered (.geE UserField.create_time (.pdatetime 1704067200))).filtered
          (.leE UserField.create_time (.pdatetime (1706659200 + 86400 - 1)))) = false := by
  intro S D t f q q2
  refine ⟨rfl, ?_, by decide, by decide⟩
  simp [satisfiesDt, dtHolds, Bool.and_assoc]

/-- C4 counterexample: `paginate(-2, -1)` is accepted unchecked and
`build_paginated` still applies pagination (a Python `int` is truthy exactly
when nonzero), so pagination is applied with a limit that is not positive and
a negative offset. -/
theorem build_paginated_negative_limit :
    build_paginated
        (paginate (PaginatedQueryBuilder.init UserExpr UserOrd) (-2) (-1))
        Select.base =
      some ((Select.base.limited (-1)).offsetted (-2)) ∧
    ¬((-1 : Int) > 0) ∧ ¬((-2 : Int) ≥ 0) :=
  ⟨rfl, by decide, by decide⟩

/-- C4 amended: `build_paginated` equals `build`, then ordering exactly when
at least one sort directive is registered, then `limit`/`offset` exactly when
the stored limit is nonzero (Python truthiness); the stored offset and limit
are applied as they are, with no sign check. -/
theorem build_paginated_characterization :
    ∀ (E F : Type) (b : PaginatedQueryBuilder E F) (q0 q1 : Select E F),
      build b.toQueryBuilder q0 = some q1 →
      (b._order_by = [] ∧ b._limit = 0 → build_paginated b q0 = some q1) ∧
      (b._order_by ≠ [] ∧ b._limit = 0 →
        build_paginated b q0 = some (q1.ordered b._order_by)) ∧
      (b._order_by = [] ∧ b._limit ≠ 0 →
        build_paginated b q0 =
          some ((q1.limited b._limit).offsetted b._offset)) ∧
      (b._order_by ≠ [] ∧ b._limit ≠ 0 →
        build_paginated b q0 =
          some (((q1.ordered b._order_by).limited b._limit).offsetted
            b._offset)) := by
  intro E F b q0 q1 h
  refine ⟨?_, ?_, ?_, ?_⟩ <;> rintro ⟨h1, h2⟩ <;>
    simp [build_paginated, h, h1, h2, List.isEmpty_iff]

theorem build_paginated_characterization_witness :
    build_paginated (PaginatedQueryBuilder.init UserExpr UserOrd) Select.base =
      some ((Select.base.limited 100).offsetted 0) :=
  (build_paginated_characterization UserExpr UserOrd
    (PaginatedQueryBuilder.init UserExpr UserOrd) Select.base Select.base
    rfl).2.2.1 ⟨rfl, by decide⟩

/-- C7: `UserFieldMapper._convert_to_format` dispatches each of its four
recognized format names to the corresponding builder on the extracted base
data and raises a `ValueError` for every other name — in particular for
`"form"`, which `FormatType` declares but no branch handles. Dispatch never
silently drops a format name. -/
theorem convert_to_format_dispatch :
    ∀ (α : Type) (fm fp fl fd : List (PyStr × PyVal) → SysUserE → α)
      (user : SysUserE) (ft : PyStr),
      (isOkE (convertToFormat fm fp fl fd user ft) =
        decide (ft ∈ recognizedFormats)) ∧
      convertToFormat fm fp fl fd user (codes "me_response") =
        .ok (fm (extractBaseData user) user) ∧
      convertToFormat fm fp fl fd user (codes "profile") =
        .ok (fp (extractBaseData user) user) ∧
      convertToFormat fm fp fl fd user (codes "list_item") =
        .ok (fl (extractBaseData user) user) ∧
      convertToFormat fm fp fl fd user (codes "detail") =
        .ok (fd (extractBaseData user) user) ∧
      convertToFormat fm fp fl fd user (codes "form") =
        .error (codes "Unknown format type: " ++ codes "form") := by
  intro α fm fp fl fd user ft
  refine ⟨?_, rfl, rfl, rfl, rfl, rfl⟩
  by_cases h1 : ft = codes "me_response"
  · subst h1; simp +decide [convertToFormat, recognizedFormats, isOkE]
  by_cases h2 : ft = codes "profile"
  · subst h2; simp +decide [convertToFormat, recognizedFormats, isOkE]
  by_cases h3 : ft = codes "list_item"
  · subst h3; simp +decide [convertToFormat, recognizedFormats, isOkE]
  by_cases h4 : ft = codes "detail"
  · subst h4; simp +decide [convertToFormat, recognizedFormats, isOkE]
  simp [convertToFormat, recognizedFormats, isOkE, h1, h2, h3, h4]

theorem setAdd_nodup {s : List PyStr} {x : PyStr} (h : s.Nodup) :
    (setAdd s x).Nodup := by
  rw [setAdd]
  split
  · exact h
  · next hx =>
    refine h.append (List.nodup_singleton x) ?_
    intro a ha hb
    rw [List.mem_singleton] at hb
    subst hb
    exact hx ha

theorem mem_setAdd {s : List PyStr} {x a : PyStr} :
    a ∈ setAdd s x ↔ a ∈ s ∨ a = x := by
  rw [setAdd]
  split
  · next hx =>
    constructor
    · exact Or.inl
    · rintro (h | rfl)
      · exact h
      · exact hx
  · simp

theorem permsFold_nodup :
    ∀ (ps : List PermE) (acc : List PyStr), acc.Nodup →
      (ps.foldl (fun a p => setAdd a p.code) acc).Nodup
  | [], _ => fun h => h
  | p :: ps, acc => fun h =>
    permsFold_nodup ps (setAdd acc p.code) (setAdd_nodup h)

theorem mem_permsFold :
    ∀ (ps : List PermE) (acc : List PyStr) (c : PyStr),
      c ∈ ps.foldl (fun a p => setAdd a p.code) acc ↔
        c ∈ acc ∨ ∃ p ∈ ps, p.code = c
  | [], acc, c => by simp
  | p :: ps, acc, c => by
    rw [List.foldl_cons, mem_permsFold ps (setAdd acc p.code) c]
    simp only [mem_setAdd, List.mem_cons]
    constructor
    · rintro ((h | rfl) | ⟨p2, hp2, rfl⟩)
      · exact Or.inl h
      · exact Or.inr ⟨p, Or.inl rfl, rfl⟩
      · exact Or.inr ⟨p2, Or.inr hp2, rfl⟩
    · rintro (h | ⟨p2, (rfl | hp2), rfl⟩)
      · exact Or.inl (Or.inl h)
      · exact Or.inl (Or.inr rfl)
      · exact Or.inr ⟨p2, hp2, rfl⟩

theorem rolesFold_nodup :
    ∀ (rs : List RoleE) (acc : List PyStr), acc.Nodup →
      (rs.foldl
        (fun acc role => role.permissions.foldl (fun a p => setAdd a p.code) acc)
        acc).Nodup
  | [], _ => fun h => h
  | r :: rs, acc => fun h =>
    rolesFold_nodup rs _ (permsFold_nodup r.permissions acc h)

theorem mem_rolesFold :
    ∀ (rs : List RoleE) (acc : List PyStr) (c : PyStr),
      c ∈ rs.foldl
          (fun acc role =>
            role.permissions.foldl (fun a p => setAdd a p.code) acc) acc ↔
        c ∈ acc ∨ ∃ r ∈ rs, ∃ p ∈ r.permissions, p.code = c
  | [], acc, c => by simp
  | r :: rs, acc, c => by
    rw [List.foldl_cons, mem_rolesFold rs _ c]
    simp only [mem_permsFold, List.mem_cons]
    constructor
    · rintro ((h | ⟨p, hp, rfl⟩) | ⟨r2, hr2, hrest⟩)
      · exact Or.inl h
      · exact Or.inr ⟨r, Or.inl rfl, p, hp, rfl⟩
      · exact Or.inr ⟨r2, Or.inr hr2, hrest⟩
    · rintro (h | ⟨r2, (rfl | hr2), hrest⟩)
      · exact Or.inl (Or.inl h)
      · exact Or.inl (Or.inr hrest)
      · exact Or.inr ⟨r2, hr2, hrest⟩

/-- C8: the permission-code extraction shared by the Detail and Me-response
builders pools codes across all roles through a set: the returned list has no
duplicate, it contains a code exactly when some role grants it, and for the
spec's Scenario-D entity (two roles both granting `user:read`) the code
`user:read` appears exactly once. -/
theorem permission_codes_dedup :
    ∀ user : SysUserE,
      (extract_permission_codes user).Nodup ∧
      (∀ c : PyStr, c ∈ extract_permission_codes user ↔
        ∃ r ∈ user.roles, ∃ p ∈ r.permissions, p.code = c) ∧
      (extract_permission_codes demoUser).count (codes "user:read") = 1 := by
  intro user
  refine ⟨rolesFold_nodup user.roles [] List.nodup_nil, fun c => ?_, by decide⟩
  rw [extract_permission_codes, mem_rolesFold user.roles [] c]
  simp

theorem convertKeysFuel_leaf (f : PyStr → PyStr) (fuel : Nat) {v : PyVal}
    (h : isLeaf v = true) : convertKeysFuel f (fuel + 1) v = .ok v := by
  cases v <;> simp_all [convertKeysFuel, isLeaf]

theorem convertKeysFuel_leafN (f : PyStr → PyStr) {fuel : Nat} (hf : fuel ≠ 0)
    {v : PyVal} (h : isLeaf v = true) : convertKeysFuel f fuel v = .ok v := by
  cases fuel with
  | zero => exact absurd rfl hf
  | succ m => exact convertKeysFuel_leaf f m h

theorem convertKeysFuel_flat (f : PyStr → PyStr) (fuel : Nat) (hf : fuel ≠ 0) :
    ∀ (entries : List (PyStr × PyVal)) (acc : List (PyStr × PyVal)),
      (∀ kv ∈ entries, isLeaf kv.2 = true) →
      entries.foldl
        (fun (a : Except PyStr (List (PyStr × PyVal))) kv =>
          match a with
          | .error e => .error e
          | .ok accl =>
            match convertKeysFuel f fuel kv.2 with
            | .ok v2 => .ok (dictSet accl (f kv.1) v2)
            | .error e => .error e)
        (.ok acc) =
        .ok (entries.foldl (fun accl kv => dictSet accl (f kv.1) kv.2) acc)
  | [], acc => fun _ => rfl
  | (k, v) :: entries, acc => fun h => by
    have h1 : isLeaf v = true := h (k, v) (List.mem_cons_self _ _)
    have h2 : ∀ kv ∈ entries, isLeaf kv.2 = true :=
      fun kv hkv => h kv (List.mem_cons_of_mem _ hkv)
    rw [List.foldl_cons, List.foldl_cons, convertKeysFuel_leafN f hf h1]
    exact convertKeysFuel_flat f fuel hf entries (dictSet acc (f k) v) h2

theorem b2f_flat_aux :
    ∀ (fm : FieldMapper) (entries : List (PyStr × PyVal)),
      (∀ kv ∈ entries, isLeaf kv.2 = true) →
      backend_to_frontend fm (.pdict entries) =
        .ok (.pdict (entries.foldl
          (fun acc kv => dictSet acc (b2fKey fm kv.1) kv.2) [])) := by
  intro fm entries h
  show Except.map PyVal.pdict
      (entries.foldl _ (Except.ok ([] : List (PyStr × PyVal)))) = _
  rw [convertKeysFuel_flat (b2fKey fm) 10 (by omega) entries [] h]
  rfl

/-- C1 amended: on a flat mapping of primitive values, `backend_to_frontend`
translates the keys (explicit table first, camelCase fallback otherwise) and
returns every value, including native datetimes, unchanged. -/
theorem backend_to_frontend_flat :
    ∀ (fm : FieldMapper) (entries : List (PyStr × PyVal)),
      (∀ kv ∈ entries, isLeaf kv.2 = true) →
      backend_to_frontend fm (.pdict entries) =
        .ok (.pdict (entries.foldl
          (fun acc kv => dictSet acc (b2fKey fm kv.1) kv.2) [])) :=
  b2f_flat_aux

theorem backend_to_frontend_flat_witness :
    backend_to_frontend default_mapper
        (.pdict [(codes "dept_id", .pstr (codes "abc-123")),
          (codes "create_time", .pdatetime 1704067200)]) =
      .ok (.pdict ([(codes "dept_id", PyVal.pstr (codes "abc-123")),
          (codes "create_time", PyVal.pdatetime 1704067200)].foldl
        (fun acc kv => dictSet acc (b2fKey default_mapper kv.1) kv.2) [])) :=
  backend_to_frontend_flat default_mapper
    [(codes "dept_id", .pstr (codes "abc-123")),
      (codes "create_time", .pdatetime 1704067200)] (by decide)

/-- C1 counterexample: mapping `{"dept_id": "abc-123", "create_time":
datetime(2024,1,1)}` (epoch 1704067200) through the default mapper's
`backend_to_frontend` translates the keys but returns the datetime value as a
native datetime, not the ISO string `"2024-01-01T00:00:00"` the claim
asserts. -/
theorem backend_to_frontend_keeps_datetime :
    backend_to_frontend default_mapper
        (.pdict [(codes "dept_id", .pstr (codes "abc-123")),
          (codes "create_time", .pdatetime 1704067200)]) =
      .ok (.pdict [(codes "deptId", .pstr (codes "abc-123")),
        (codes "createTime", .pdatetime 1704067200)]) ∧
    ¬ backend_to_frontend default_mapper
        (.pdict [(codes "dept_id", .pstr (codes "abc-123")),
          (codes "create_time", .pdatetime 1704067200)]) =
      .ok (.pdict [(codes "deptId", .pstr (codes "abc-123")),
        (codes "createTime", .pstr (codes "2024-01-01T00:00:00"))]) :=
  ⟨by decide, by decide⟩

/-- C2 amended: a table entry round-trips exactly when the derived reverse
table maps its frontend name back to it — true for every key of the default
mapper's table, but in `UserFieldMapper`'s table `created_time` and
`updated_time` are shadowed in the reverse direction by `create_time` and
`update_time` (the forward table is not injective), and only the remaining
keys round-trip. -/
theorem mapping_roundtrip :
    (∀ (fm : FieldMapper) (k fk : PyStr) (v : PyVal),
      dget fm._mappings k = some fk →
      dget fm._reverse_mappings fk = some k →
      isLeaf v = true →
      (backend_to_frontend fm (.pdict [(k, v)])).bind
          (frontend_to_backend fm) =
        .ok (.pdict [(k, v)])) ∧
    default_mapper._mappings.all
      (fun kv =>
        decide (dget default_mapper._reverse_mappings kv.2 = some kv.1)) =
      true ∧
    userFieldMapper._mappings.all
      (fun kv =>
        decide (kv.1 = codes "created_time") ||
        decide (kv.1 = codes "updated_time") ||
        decide (dget userFieldMapper._reverse_mappings kv.2 = some kv.1)) =
      true ∧
    dget userFieldMapper._reverse_mappings (codes "createTime") =
      some (codes "create_time") ∧
    dget userFieldMapper._reverse_mappings (codes "updateTime") =
      some (codes "update_time") := by
  refine ⟨?_, by decide, by decide, by decide, by decide⟩
  intro fm k fk v h1 h2 h3
  have e1 : backend_to_frontend fm (.pdict [(k, v)]) =
      .ok (.pdict [(b2fKey fm k, v)]) :=
    b2f_flat_aux fm [(k, v)] (by simpa using h3)
  have e2 : b2fKey fm k = fk := by rw [b2fKey, h1]
  rw [e1, e2]
  show frontend_to_backend fm (.pdict [(fk, v)]) = _
  have e3 : frontend_to_backend fm (.pdict [(fk, v)]) =
      Except.map PyVal.pdict
        ([(fk, v)].foldl
          (fun (a : Except PyStr (List (PyStr × PyVal))) kv =>
            match a with
            | .error e => .error e
            | .ok accl =>
              match convertKeysFuel (f2bKey fm) 10 kv.2 with
              | .ok v2 => .ok (dictSet accl (f2bKey fm kv.1) v2)
              | .error e => .error e)
          (.ok [])) := rfl
  rw [e3, convertKeysFuel_flat (f2bKey fm) 10 (by omega) [(fk, v)] []
    (by simpa using h3)]
  have e4 : f2bKey fm fk = k := by rw [f2bKey, h2]
  simp [e4, dictSet, Except.map]

theorem mapping_roundtrip_witness :
    (backend_to_frontend userFieldMapper (.pdict [(codes "dept_id", .pint 7)])).bind
        (frontend_to_backend userFieldMapper) =
      .ok (.pdict [(codes "dept_id", .pint 7)]) :=
  mapping_roundtrip.1 userFieldMapper (codes "dept_id") (codes "deptId")
    (.pint 7) (by decide) (by decide) rfl

/-- C2 counterexample: in `UserFieldMapper`'s table both `created_time` (from
`COMMON_MAPPINGS`) and `create_time` map to `createTime`, the reverse lookup
resolves `createTime` to `create_time`, and the round trip turns
`{"created_time": 1}` into `{"create_time": 1}` — the key is not restored. -/
theorem mapping_roundtrip_cx :
    (backend_to_frontend userFieldMapper
        (.pdict [(codes "created_time", .pint 1)])).bind
        (frontend_to_backend userFieldMapper) =
      .ok (.pdict [(codes "create_time", .pint 1)]) ∧
    ¬ (backend_to_frontend userFieldMapper
        (.pdict [(codes "created_time", .pint 1)])).bind
        (frontend_to_backend userFieldMapper) =
      .ok (.pdict [(codes "created_time", .pint 1)]) :=
  ⟨by decide, by decide⟩
